import Mathlib

/-!
Shallow embedding of the gpu_layout crate: the GpuBytes byte accumulator,
the shared GpuLayout write and align operations, the Std140Layout and
Std430Layout array rules, and the AsGpuBytes serializers for the
primitive scalar, vector and matrix types.  Claims about the layout
engine are stated and proved after the definitions.
-/

namespace GpuLayoutVerif

/-- Rust usize.next_multiple_of n a: if n is a multiple of a it is n,
otherwise n plus the distance to the next multiple of a.  The Rust
function panics when a is zero; that failure branch is modelled
separately by the checked variants below. -/
def nextMultipleOf (n a : Nat) : Nat :=
  if n % a = 0 then n else n + (a - n % a)

/-- The byte accumulator of the crate: the serialized bytes so far plus
the running alignment.  Bytes are modelled as natural numbers (values
below 256 in every serializer); padding bytes are zero. -/
structure GpuBytes where
  bytes : List Nat
  alignment : Nat
deriving DecidableEq

/-- GpuBytes.empty: no bytes, alignment 4. -/
def GpuBytes.empty : GpuBytes :=
  { bytes := [], alignment := 4 }

/-- GpuBytes.from_slice: wrap raw bytes with a caller-chosen alignment. -/
def GpuBytes.from_slice (data : List Nat) (alignment : Nat) : GpuBytes :=
  { bytes := data, alignment := alignment }

namespace GpuLayout

/-- GpuLayout.align_to: pad the buffer with zero bytes so its length
becomes the next multiple of the requested alignment; when no padding is
required the buffer is returned untouched. -/
def align_to (buf : GpuBytes) (alignment : Nat) : GpuBytes :=
  let offset := buf.bytes.length
  let padding := nextMultipleOf offset alignment - offset
  if padding ≠ 0 then { buf with bytes := buf.bytes ++ List.replicate padding 0 } else buf

/-- GpuLayout.write, the shared single-value write rule: skip empty
data, otherwise raise the running alignment to the maximum with the
data's alignment, pad to the data's alignment, and append the bytes. -/
def write (buf : GpuBytes) (data : GpuBytes) : GpuBytes :=
  if data.bytes.isEmpty then buf
  else
    let b1 : GpuBytes := { buf with alignment := buf.alignment.max data.alignment }
    let b2 := align_to b1 data.alignment
    { b2 with bytes := b2.bytes ++ data.bytes }

/-- GpuLayout.align: pad the buffer as a whole to its own alignment. -/
def align (buf : GpuBytes) : GpuBytes :=
  align_to buf buf.alignment

end GpuLayout

/-- GpuBytes.as_slice: align the buffer to its own alignment and return
the bytes (the finalize operation of the spec). -/
def GpuBytes.as_slice (buf : GpuBytes) : List Nat :=
  (GpuLayout.align buf).bytes

/-- Std140Layout.write_array: each array element is padded internally to
its alignment rounded up to the next multiple of 16, then merged through
the shared single-value write rule. -/
def Std140Layout.write_array (buf : GpuBytes) (data : List GpuBytes) : GpuBytes :=
  data.foldl
    (fun b elem =>
      let element_alignment := nextMultipleOf elem.alignment 16
      GpuLayout.write b (GpuLayout.align_to elem element_alignment))
    buf

/-- Std430Layout.write_array: each array element is padded internally to
its natural alignment, then merged through the shared single-value write
rule. -/
def Std430Layout.write_array (buf : GpuBytes) (data : List GpuBytes) : GpuBytes :=
  data.foldl
    (fun b elem =>
      let element_alignment := elem.alignment
      GpuLayout.write b (GpuLayout.align_to elem element_alignment))
    buf

/-- The two layout policies of the crate. -/
inductive Policy where
  | std140
  | std430
deriving DecidableEq

/-- Dispatch the array rule by policy. -/
def writeArrayP : Policy → GpuBytes → List GpuBytes → GpuBytes
  | Policy.std140 => Std140Layout.write_array
  | Policy.std430 => Std430Layout.write_array

/-- Little-endian byte view of a 32-bit word, as produced by
bytemuck.bytes_of for the 32-bit scalar types. -/
def le4 (n : Nat) : List Nat :=
  [n % 256, n / 256 % 256, n / 65536 % 256, n / 16777216 % 256]

/-- Serializer for a 32-bit scalar (f32, i32, u32): 4 bytes, alignment 4. -/
def scalarGb (n : Nat) : GpuBytes :=
  GpuBytes.from_slice (le4 n) 4

/-- Serializer for a 2-component vector: 8 bytes, alignment 8. -/
def vec2Gb (a1 a2 : Nat) : GpuBytes :=
  GpuBytes.from_slice (le4 a1 ++ le4 a2) 8

/-- Serializer for a 3-component vector: 12 bytes, alignment 16. -/
def vec3Gb (a1 a2 a3 : Nat) : GpuBytes :=
  GpuBytes.from_slice (le4 a1 ++ le4 a2 ++ le4 a3) 16

/-- Serializer for a 4-component vector: 16 bytes, alignment 16. -/
def vec4Gb (a1 a2 a3 a4 : Nat) : GpuBytes :=
  GpuBytes.from_slice (le4 a1 ++ le4 a2 ++ le4 a3 ++ le4 a4) 16

/-- Serializer for a 2x2 matrix: two column-vector writes through the
shared single-value write rule into a fresh empty accumulator. -/
def mat2Gb (a1 a2 b1 b2 : Nat) : GpuBytes :=
  GpuLayout.write (GpuLayout.write GpuBytes.empty (vec2Gb a1 a2)) (vec2Gb b1 b2)

/-- Serializer for a 3x3 matrix: three column-vector writes through the
shared single-value write rule into a fresh empty accumulator. -/
def mat3Gb (a1 a2 a3 b1 b2 b3 c1 c2 c3 : Nat) : GpuBytes :=
  GpuLayout.write
    (GpuLayout.write (GpuLayout.write GpuBytes.empty (vec3Gb a1 a2 a3)) (vec3Gb b1 b2 b3))
    (vec3Gb c1 c2 c3)

/-- Serializer for a 4x4 matrix: four column-vector writes through the
shared single-value write rule into a fresh empty accumulator. -/
def mat4Gb (a1 a2 a3 a4 b1 b2 b3 b4 c1 c2 c3 c4 d1 d2 d3 d4 : Nat) : GpuBytes :=
  GpuLayout.write
    (GpuLayout.write
      (GpuLayout.write (GpuLayout.write GpuBytes.empty (vec4Gb a1 a2 a3 a4)) (vec4Gb b1 b2 b3 b4))
      (vec4Gb c1 c2 c3 c4))
    (vec4Gb d1 d2 d3 d4)

/-- The serializable value kinds of the crate: 32-bit scalars, vectors,
column-major square matrices, and (possibly nested) arrays.  Components
are carried as 32-bit bit patterns. -/
inductive Value where
  | scalar (bits : Nat)
  | vec2 (a1 a2 : Nat)
  | vec3 (a1 a2 a3 : Nat)
  | vec4 (a1 a2 a3 a4 : Nat)
  | mat2 (a1 a2 b1 b2 : Nat)
  | mat3 (a1 a2 a3 b1 b2 b3 c1 c2 c3 : Nat)
  | mat4 (a1 a2 a3 a4 b1 b2 b3 b4 c1 c2 c3 c4 d1 d2 d3 d4 : Nat)
  | arr (elems : List Value)

mutual

/-- Value.as_gpu_bytes: the AsGpuBytes capability of the crate, its
primitive impls and the slice impl (which serializes an array by running
the policy's array rule into a fresh empty accumulator). -/
def Value.as_gpu_bytes (p : Policy) : Value → GpuBytes
  | Value.scalar b => scalarGb b
  | Value.vec2 a1 a2 => vec2Gb a1 a2
  | Value.vec3 a1 a2 a3 => vec3Gb a1 a2 a3
  | Value.vec4 a1 a2 a3 a4 => vec4Gb a1 a2 a3 a4
  | Value.mat2 a1 a2 b1 b2 => mat2Gb a1 a2 b1 b2
  | Value.mat3 a1 a2 a3 b1 b2 b3 c1 c2 c3 => mat3Gb a1 a2 a3 b1 b2 b3 c1 c2 c3
  | Value.mat4 a1 a2 a3 a4 b1 b2 b3 b4 c1 c2 c3 c4 d1 d2 d3 d4 =>
      mat4Gb a1 a2 a3 a4 b1 b2 b3 b4 c1 c2 c3 c4 d1 d2 d3 d4
  | Value.arr es => writeArrayP p GpuBytes.empty (Value.listAsGpuBytes p es)

/-- Serialize a list of values elementwise. -/
def Value.listAsGpuBytes (p : Policy) : List Value → List GpuBytes
  | [] => []
  | v :: vs => Value.as_gpu_bytes p v :: Value.listAsGpuBytes p vs

end

/-- Whether a value is an array. -/
def Value.isArr : Value → Bool
  | Value.arr _ => true
  | _ => false

/-- Fold the shared single-value write rule over a list of serialized
values. -/
def writeList (buf : GpuBytes) (ds : List GpuBytes) : GpuBytes :=
  ds.foldl GpuLayout.write buf

/-- A serialization session: fold single-value writes of typed values
into an empty accumulator under a policy. -/
def writeValues (p : Policy) (vs : List Value) : GpuBytes :=
  vs.foldl (fun b v => GpuLayout.write b (Value.as_gpu_bytes p v)) GpuBytes.empty

/-- Checked variant of align_to: the Rust padding computation divides by
the target alignment, so alignment zero is the panic branch, modelled as
none. -/
def align_toChecked (buf : GpuBytes) (alignment : Nat) : Option GpuBytes :=
  if alignment = 0 then none else some (GpuLayout.align_to buf alignment)

/-- Checked variant of the shared single-value write rule. -/
def writeChecked (buf : GpuBytes) (data : GpuBytes) : Option GpuBytes :=
  if data.bytes.isEmpty then some buf
  else
    (align_toChecked { buf with alignment := buf.alignment.max data.alignment }
        data.alignment).map
      (fun b2 => { b2 with bytes := b2.bytes ++ data.bytes })

/-- Checked variant of the array rules of both policies. -/
def write_arrayChecked (p : Policy) (buf : GpuBytes) (data : List GpuBytes) :
    Option GpuBytes :=
  data.foldlM
    (fun b elem =>
      let element_alignment :=
        match p with
        | Policy.std140 => nextMultipleOf elem.alignment 16
        | Policy.std430 => elem.alignment
      (align_toChecked elem element_alignment).bind (fun ep => writeChecked b ep))
    buf

/-- Checked variant of finalization (align to the accumulator's own
alignment, then return the bytes). -/
def finalizeChecked (buf : GpuBytes) : Option (List Nat) :=
  (align_toChecked buf buf.alignment).map GpuBytes.bytes

/-- One Std140 array step: pad the element internally to its alignment
rounded up to a multiple of 16, then merge it. -/
def std140Step (b e : GpuBytes) : GpuBytes :=
  GpuLayout.write b (GpuLayout.align_to e (nextMultipleOf e.alignment 16))

/-- One Std430 array step: pad the element internally to its natural
alignment, then merge it. -/
def std430Step (b e : GpuBytes) : GpuBytes :=
  GpuLayout.write b (GpuLayout.align_to e e.alignment)

/-- The accumulator after the Std140 array rule has consumed the first i
elements. -/
def std140Prefix (buf : GpuBytes) (data : List GpuBytes) (i : Nat) : GpuBytes :=
  Std140Layout.write_array buf (data.take i)

/-- The accumulator after the Std430 array rule has consumed the first i
elements. -/
def std430Prefix (buf : GpuBytes) (data : List GpuBytes) (i : Nat) : GpuBytes :=
  Std430Layout.write_array buf (data.take i)

/-- Any value is at most its next multiple. -/
theorem nextMultipleOf_le (n a : Nat) : n ≤ nextMultipleOf n a := by
  rw [nextMultipleOf]; split
  · exact Nat.le_refl n
  · exact Nat.le_add_right n _

/-- A value already a multiple of the alignment is its own next multiple. -/
theorem nextMultipleOf_eq_self {n a : Nat} (h : n % a = 0) : nextMultipleOf n a = n := by
  rw [nextMultipleOf, if_pos h]

/-- The next multiple is a multiple (positive alignment). -/
theorem nextMultipleOf_mod (n : Nat) {a : Nat} (ha : 0 < a) : nextMultipleOf n a % a = 0 := by
  rw [nextMultipleOf]
  by_cases h : n % a = 0
  · rw [if_pos h]; exact h
  · rw [if_neg h]
    have h1 : n % a < a := Nat.mod_lt n ha
    have h2 : n % a ≤ n := Nat.mod_le n a
    have h3 : n + (a - n % a) = n - n % a + a := by omega
    have h4 : n - n % a = a * (n / a) := by
      have h5 := Nat.div_add_mod n a
      omega
    rw [h3, Nat.add_mod_right, h4]
    exact Nat.mul_mod_right a (n / a)

/-- Divisibility form of nextMultipleOf_mod. -/
theorem nextMultipleOf_dvd (n : Nat) {a : Nat} (ha : 0 < a) : a ∣ nextMultipleOf n a :=
  Nat.dvd_of_mod_eq_zero (nextMultipleOf_mod n ha)

/-- The next multiple stays below n plus the alignment. -/
theorem nextMultipleOf_lt_add (n : Nat) {a : Nat} (ha : 0 < a) : nextMultipleOf n a < n + a := by
  rw [nextMultipleOf]
  by_cases h : n % a = 0
  · rw [if_pos h]; omega
  · rw [if_neg h]
    have h1 : n % a < a := Nat.mod_lt n ha
    have h2 : 0 < n % a := Nat.pos_of_ne_zero h
    omega

/-- The next multiple is the least multiple of a at least n. -/
theorem nextMultipleOf_le_of_dvd (n : Nat) {a m : Nat} (ha : 0 < a) (hm : a ∣ m)
    (hnm : n ≤ m) : nextMultipleOf n a ≤ m := by
  by_contra hlt
  push_neg at hlt
  have h1 := nextMultipleOf_lt_add n ha
  obtain ⟨c, hc⟩ := hm
  obtain ⟨d, hd⟩ := nextMultipleOf_dvd n ha
  have hcd : c < d := by
    rw [hc, hd] at hlt
    exact Nat.lt_of_mul_lt_mul_left hlt
  have hge : a * (c + 1) ≤ a * d := Nat.mul_le_mul_left a hcd
  have hlt2 : a * d < a * (c + 1) := by
    have h3 : a * d < a * c + a := by
      calc a * d = nextMultipleOf n a := hd.symm
      _ < n + a := h1
      _ ≤ m + a := Nat.add_le_add_right hnm a
      _ = a * c + a := by rw [hc]
    have h4 : a * (c + 1) = a * c + a := by ring
    omega
  omega

/-- The next multiple agrees with the ceiling-division formula of the
spec (positive alignment). -/
theorem nextMultipleOf_ceil (n : Nat) {a : Nat} (ha : 0 < a) :
    nextMultipleOf n a = (n + a - 1) / a * a := by
  have hdvd : a ∣ (n + a - 1) / a * a := dvd_mul_left a _
  have hge : n ≤ (n + a - 1) / a * a := by
    have h1 : n + a - 1 < (n + a - 1) / a * a + a := Nat.lt_div_mul_add ha
    omega
  have hle : (n + a - 1) / a * a ≤ nextMultipleOf n a + a - 1 := by
    have h2 : n + a - 1 ≤ nextMultipleOf n a + a - 1 := by
      have := nextMultipleOf_le n a
      omega
    have h3 : (n + a - 1) / a * a ≤ n + a - 1 := Nat.div_mul_le_self _ _
    calc (n + a - 1) / a * a ≤ n + a - 1 := h3
    _ ≤ nextMultipleOf n a + a - 1 := h2
  have h5 := nextMultipleOf_le_of_dvd n ha hdvd hge
  have h6 := nextMultipleOf_dvd n ha
  obtain ⟨c, hc⟩ := h6
  obtain ⟨d, hd⟩ := hdvd
  rw [hc, hd] at h5 hle ⊢
  rcases Nat.lt_or_ge c d with hcd | hcd
  · have h8 : a * (c + 1) ≤ a * d := Nat.mul_le_mul_left a hcd
    have h7 : a * (c + 1) = a * c + a := by ring
    omega
  · have h8 : a * d ≤ a * c := Nat.mul_le_mul_left a hcd
    omega

/-- A power of two is positive. -/
theorem pow2_pos {a : Nat} (h : ∃ k, a = 2 ^ k) : 0 < a := by
  obtain ⟨k, rfl⟩ := h
  exact pow_pos (by norm_num) k

/-- The maximum of two powers of two is a power of two. -/
theorem pow2_max {a b : Nat} (ha : ∃ j, a = 2 ^ j) (hb : ∃ k, b = 2 ^ k) :
    ∃ k, a.max b = 2 ^ k := by
  obtain ⟨j, rfl⟩ := ha
  obtain ⟨k, rfl⟩ := hb
  rcases Nat.le_total j k with h | h
  · exact ⟨k, max_eq_right (Nat.pow_le_pow_right (by norm_num) h)⟩
  · exact ⟨j, max_eq_left (Nat.pow_le_pow_right (by norm_num) h)⟩

/-- Aligning a 16-multiple to a power-of-two alignment lands on a
16-multiple again. -/
theorem dvd16_nextMultipleOf {a : Nat} (hpow : ∃ k, a = 2 ^ k) {n : Nat} (hn : 16 ∣ n) :
    16 ∣ nextMultipleOf n a := by
  obtain ⟨k, rfl⟩ := hpow
  by_cases hk : k ≤ 4
  · have hdvd : (2 ^ k : Nat) ∣ 16 := by
      have h16 : (16 : Nat) = 2 ^ 4 := by norm_num
      rw [h16]
      exact pow_dvd_pow 2 hk
    have h2 : (2 ^ k : Nat) ∣ n := hdvd.trans hn
    rw [nextMultipleOf_eq_self (Nat.mod_eq_zero_of_dvd h2)]
    exact hn
  · have h16 : (16 : Nat) ∣ 2 ^ k := by
      have h4 : (16 : Nat) = 2 ^ 4 := by norm_num
      rw [h4]
      exact pow_dvd_pow 2 (by omega)
    exact h16.trans (nextMultipleOf_dvd n (pow_pos (by norm_num) k))

/-- Byte view of align_to: the original bytes followed by the zero
padding. -/
theorem align_to_bytes (buf : GpuBytes) (a : Nat) :
    (GpuLayout.align_to buf a).bytes
      = buf.bytes
        ++ List.replicate (nextMultipleOf buf.bytes.length a - buf.bytes.length) 0 := by
  simp only [GpuLayout.align_to]
  split
  · rfl
  · next h =>
      have h0 : nextMultipleOf buf.bytes.length a - buf.bytes.length = 0 := by
        simpa using h
      rw [h0]
      simp

/-- align_to never changes the recorded alignment. -/
theorem align_to_alignment (buf : GpuBytes) (a : Nat) :
    (GpuLayout.align_to buf a).alignment = buf.alignment := by
  simp only [GpuLayout.align_to]
  split <;> rfl

/-- Length after align_to is exactly the next multiple. -/
theorem align_to_length (buf : GpuBytes) (a : Nat) :
    (GpuLayout.align_to buf a).bytes.length = nextMultipleOf buf.bytes.length a := by
  rw [align_to_bytes]
  have := nextMultipleOf_le buf.bytes.length a
  simp only [List.length_append, List.length_replicate]
  omega

/-- align_to on an already aligned buffer is the identity. -/
theorem align_to_eq_self {buf : GpuBytes} {a : Nat} (h : buf.bytes.length % a = 0) :
    GpuLayout.align_to buf a = buf := by
  simp only [GpuLayout.align_to]
  rw [nextMultipleOf_eq_self h]
  simp

/-- align_to preserves emptiness of the byte view. -/
theorem align_to_bytes_eq_nil_iff (buf : GpuBytes) (a : Nat) :
    (GpuLayout.align_to buf a).bytes = [] ↔ buf.bytes = [] := by
  rw [align_to_bytes]
  constructor
  · intro h
    exact (List.append_eq_nil.mp h).1
  · intro h
    rw [h]
    simp [nextMultipleOf]

/-- Writing an empty byte view is a no-op. -/
theorem write_empty_data (buf : GpuBytes) {d : GpuBytes} (h : d.bytes = []) :
    GpuLayout.write buf d = buf := by
  rw [GpuLayout.write]
  simp [h]

/-- Alignment after a non-empty write is the maximum. -/
theorem write_alignment_of_ne (buf : GpuBytes) {d : GpuBytes} (h : d.bytes ≠ []) :
    (GpuLayout.write buf d).alignment = buf.alignment.max d.alignment := by
  simp only [GpuLayout.write]
  rw [if_neg (by simpa using h)]
  exact align_to_alignment _ _

/-- Byte view after a non-empty write: old bytes, padding to the data's
alignment, then the data's bytes. -/
theorem write_bytes_of_ne (buf : GpuBytes) {d : GpuBytes} (h : d.bytes ≠ []) :
    (GpuLayout.write buf d).bytes
      = buf.bytes
        ++ List.replicate
            (nextMultipleOf buf.bytes.length d.alignment - buf.bytes.length) 0
        ++ d.bytes := by
  simp only [GpuLayout.write]
  rw [if_neg (by simpa using h)]
  have hb := align_to_bytes { buf with alignment := buf.alignment.max d.alignment } d.alignment
  simp only at hb
  simp [hb]

/-- Length after a non-empty write. -/
theorem write_length_of_ne (buf : GpuBytes) {d : GpuBytes} (h : d.bytes ≠ []) :
    (GpuLayout.write buf d).bytes.length
      = nextMultipleOf buf.bytes.length d.alignment + d.bytes.length := by
  rw [write_bytes_of_ne buf h]
  have := nextMultipleOf_le buf.bytes.length d.alignment
  simp only [List.length_append, List.length_replicate]
  omega

/-- isEmpty of a non-empty list is false. -/
theorem isEmpty_eq_false {l : List Nat} (h : l ≠ []) : l.isEmpty = false := by
  cases l with
  | nil => exact absurd rfl h
  | cons x xs => rfl

/-- Buffer alignment never decreases across a write. -/
theorem write_alignment_ge (buf d : GpuBytes) :
    buf.alignment ≤ (GpuLayout.write buf d).alignment := by
  by_cases h : d.bytes = []
  · rw [write_empty_data buf h]
  · rw [write_alignment_of_ne buf h]
    exact Nat.le_max_left _ _

/-- The Std140 array rule on nil. -/
theorem std140_write_array_nil (buf : GpuBytes) :
    Std140Layout.write_array buf [] = buf := rfl

/-- The Std140 array rule on cons. -/
theorem std140_write_array_cons (buf e : GpuBytes) (rest : List GpuBytes) :
    Std140Layout.write_array buf (e :: rest)
      = Std140Layout.write_array (std140Step buf e) rest := rfl

/-- The Std430 array rule on nil. -/
theorem std430_write_array_nil (buf : GpuBytes) :
    Std430Layout.write_array buf [] = buf := rfl

/-- The Std430 array rule on cons. -/
theorem std430_write_array_cons (buf e : GpuBytes) (rest : List GpuBytes) :
    Std430Layout.write_array buf (e :: rest)
      = Std430Layout.write_array (std430Step buf e) rest := rfl

/-- Folding over a take of one more element. -/
theorem foldl_take_succ {α β : Type} (f : β → α → β) (l : List α) (i : Nat)
    (hi : i < l.length) (b : β) :
    (l.take (i + 1)).foldl f b = f ((l.take i).foldl f b) (l.get ⟨i, hi⟩) := by
  induction l generalizing i b with
  | nil => simp at hi
  | cons x xs ih =>
    cases i with
    | zero => simp
    | succ j =>
      simp only [List.take_succ_cons, List.foldl_cons]
      exact ih j (by simpa using hi) (f b x)

/-- One more element through the Std140 array rule. -/
theorem std140Prefix_succ (buf : GpuBytes) (data : List GpuBytes) (i : Nat)
    (hi : i < data.length) :
    std140Prefix buf data (i + 1)
      = std140Step (std140Prefix buf data i) (data.get ⟨i, hi⟩) := by
  unfold std140Prefix Std140Layout.write_array
  exact foldl_take_succ _ data i hi buf

/-- One more element through the Std430 array rule. -/
theorem std430Prefix_succ (buf : GpuBytes) (data : List GpuBytes) (i : Nat)
    (hi : i < data.length) :
    std430Prefix buf data (i + 1)
      = std430Step (std430Prefix buf data i) (data.get ⟨i, hi⟩) := by
  unfold std430Prefix Std430Layout.write_array
  exact foldl_take_succ _ data i hi buf

/-- Equation lemma: serializing an array value. -/
theorem as_gpu_bytes_arr (p : Policy) (es : List Value) :
    Value.as_gpu_bytes p (Value.arr es)
      = writeArrayP p GpuBytes.empty (Value.listAsGpuBytes p es) := by
  simp [Value.as_gpu_bytes]

/-- Equation lemma: serializing a scalar value. -/
theorem as_gpu_bytes_scalar (p : Policy) (b : Nat) :
    Value.as_gpu_bytes p (Value.scalar b) = scalarGb b := by
  simp [Value.as_gpu_bytes]

/-- Equation lemma: serializing a 2-component vector. -/
theorem as_gpu_bytes_vec2 (p : Policy) (a1 a2 : Nat) :
    Value.as_gpu_bytes p (Value.vec2 a1 a2) = vec2Gb a1 a2 := by
  simp [Value.as_gpu_bytes]

/-- Equation lemma: serializing a 3-component vector. -/
theorem as_gpu_bytes_vec3 (p : Policy) (a1 a2 a3 : Nat) :
    Value.as_gpu_bytes p (Value.vec3 a1 a2 a3) = vec3Gb a1 a2 a3 := by
  simp [Value.as_gpu_bytes]

/-- Equation lemma: serializing a 4-component vector. -/
theorem as_gpu_bytes_vec4 (p : Policy) (a1 a2 a3 a4 : Nat) :
    Value.as_gpu_bytes p (Value.vec4 a1 a2 a3 a4) = vec4Gb a1 a2 a3 a4 := by
  simp [Value.as_gpu_bytes]

/-- Equation lemma: serializing a 2x2 matrix. -/
theorem as_gpu_bytes_mat2 (p : Policy) (a1 a2 b1 b2 : Nat) :
    Value.as_gpu_bytes p (Value.mat2 a1 a2 b1 b2) = mat2Gb a1 a2 b1 b2 := by
  simp [Value.as_gpu_bytes]

/-- Equation lemma: serializing a 3x3 matrix. -/
theorem as_gpu_bytes_mat3 (p : Policy) (a1 a2 a3 b1 b2 b3 c1 c2 c3 : Nat) :
    Value.as_gpu_bytes p (Value.mat3 a1 a2 a3 b1 b2 b3 c1 c2 c3)
      = mat3Gb a1 a2 a3 b1 b2 b3 c1 c2 c3 := by
  simp [Value.as_gpu_bytes]

/-- Equation lemma: serializing a 4x4 matrix. -/
theorem as_gpu_bytes_mat4 (p : Policy)
    (a1 a2 a3 a4 b1 b2 b3 b4 c1 c2 c3 c4 d1 d2 d3 d4 : Nat) :
    Value.as_gpu_bytes p (Value.mat4 a1 a2 a3 a4 b1 b2 b3 b4 c1 c2 c3 c4 d1 d2 d3 d4)
      = mat4Gb a1 a2 a3 a4 b1 b2 b3 b4 c1 c2 c3 c4 d1 d2 d3 d4 := by
  simp [Value.as_gpu_bytes]

/-- Equation lemma: serializing an empty value list. -/
theorem listAsGpuBytes_nil (p : Policy) : Value.listAsGpuBytes p [] = [] := by
  simp [Value.listAsGpuBytes]

/-- Equation lemma: serializing a value list, cons case. -/
theorem listAsGpuBytes_cons (p : Policy) (v : Value) (vs : List Value) :
    Value.listAsGpuBytes p (v :: vs)
      = Value.as_gpu_bytes p v :: Value.listAsGpuBytes p vs := by
  simp [Value.listAsGpuBytes]

/-- A non-array value serializes identically under both policies. -/
theorem as_gpu_bytes_policy_free {v : Value} (h : Value.isArr v = false) :
    Value.as_gpu_bytes Policy.std140 v = Value.as_gpu_bytes Policy.std430 v := by
  cases v <;> simp [Value.as_gpu_bytes]
  simp [Value.isArr] at h

attribute [irreducible] Value.as_gpu_bytes Value.listAsGpuBytes

/-- writeList on nil. -/
theorem writeList_nil (buf : GpuBytes) : writeList buf [] = buf := rfl

/-- writeList on cons. -/
theorem writeList_cons (buf d : GpuBytes) (ds : List GpuBytes) :
    writeList buf (d :: ds) = writeList (GpuLayout.write buf d) ds := rfl

/-- writeList over an append. -/
theorem writeList_append (buf : GpuBytes) (ds es : List GpuBytes) :
    writeList buf (ds ++ es) = writeList (writeList buf ds) es := by
  simp [writeList, List.foldl_append]

/-- The accumulated alignment is the fold of max over the non-empty
writes. -/
theorem writeList_alignment (buf : GpuBytes) (ds : List GpuBytes) :
    (writeList buf ds).alignment
      = ds.foldl (fun a d => if d.bytes.isEmpty then a else a.max d.alignment)
          buf.alignment := by
  induction ds generalizing buf with
  | nil => rfl
  | cons d rest ih =>
    rw [writeList_cons, ih, List.foldl_cons]
    congr 1
    by_cases h : d.bytes = []
    · rw [write_empty_data buf h, h]
      rfl
    · rw [write_alignment_of_ne buf h]
      simp [isEmpty_eq_false h]

/-- The session alignment never decreases across a sequence of writes. -/
theorem writeList_alignment_ge (buf : GpuBytes) (ds : List GpuBytes) :
    buf.alignment ≤ (writeList buf ds).alignment := by
  induction ds generalizing buf with
  | nil => exact Nat.le_refl _
  | cons d rest ih =>
    rw [writeList_cons]
    exact Nat.le_trans (write_alignment_ge buf d) (ih _)

/-- Power-of-two alignments are preserved by write sequences. -/
theorem writeList_alignment_pow2 {buf : GpuBytes} (hbuf : ∃ k, buf.alignment = 2 ^ k)
    {ds : List GpuBytes} (h : ∀ d ∈ ds, ∃ k, d.alignment = 2 ^ k) :
    ∃ k, (writeList buf ds).alignment = 2 ^ k := by
  induction ds generalizing buf with
  | nil => exact hbuf
  | cons d rest ih =>
    rw [writeList_cons]
    refine ih ?_ (fun e he => h e (List.mem_cons_of_mem d he))
    by_cases hd : d.bytes = []
    · rw [write_empty_data buf hd]
      exact hbuf
    · rw [write_alignment_of_ne buf hd]
      exact pow2_max hbuf (h d (List.mem_cons_self d rest))

/-- Claim C3: for every accumulator state and every value whose byte
view is empty, the write operation is a no-op: bytes and alignment are
both unchanged, regardless of the alignment the empty value reports. -/
theorem claim_C3_zero_size_noop (buf d : GpuBytes) (h : d.bytes = []) :
    GpuLayout.write buf d = buf
    ∧ (GpuLayout.write buf d).bytes = buf.bytes
    ∧ (GpuLayout.write buf d).alignment = buf.alignment := by
  have he := write_empty_data buf h
  exact ⟨he, by rw [he], by rw [he]⟩

/-- Witness for claim C3 at a concrete buffer and an empty value
reporting alignment 32. -/
theorem claim_C3_zero_size_noop_witness :
    (GpuBytes.mk [] 32).bytes = []
    ∧ GpuLayout.write (GpuBytes.mk [7, 7] 4) (GpuBytes.mk [] 32) = GpuBytes.mk [7, 7] 4 :=
  ⟨rfl, (claim_C3_zero_size_noop (GpuBytes.mk [7, 7] 4) (GpuBytes.mk [] 32) rfl).1⟩

/-- Claim C5: append_padding appends exactly ceil(L/a)*a - L zero bytes
(nothing when that quantity is zero), leaves the pre-existing bytes
unchanged, and the resulting length is the smallest multiple of a that
is at least L. -/
theorem claim_C5_append_padding (buf : GpuBytes) (a : Nat) (ha : 0 < a) :
    (GpuLayout.align_to buf a).bytes
      = buf.bytes
        ++ List.replicate ((buf.bytes.length + a - 1) / a * a - buf.bytes.length) 0
    ∧ (buf.bytes.length % a = 0 → GpuLayout.align_to buf a = buf)
    ∧ (GpuLayout.align_to buf a).bytes.take buf.bytes.length = buf.bytes
    ∧ (GpuLayout.align_to buf a).bytes.length % a = 0
    ∧ buf.bytes.length ≤ (GpuLayout.align_to buf a).bytes.length
    ∧ (∀ m, m % a = 0 → buf.bytes.length ≤ m
        → (GpuLayout.align_to buf a).bytes.length ≤ m) := by
  refine ⟨?_, ?_, ?_, ?_, ?_, ?_⟩
  · rw [align_to_bytes, ← nextMultipleOf_ceil _ ha]
  · intro h
    exact align_to_eq_self h
  · rw [align_to_bytes]
    exact List.take_left _ _
  · rw [align_to_length]
    exact nextMultipleOf_mod _ ha
  · rw [align_to_length]
    exact nextMultipleOf_le _ _
  · intro m hm hle
    rw [align_to_length]
    exact nextMultipleOf_le_of_dvd _ ha (Nat.dvd_of_mod_eq_zero hm) hle

/-- Witness for claim C5 at a three-byte buffer and alignment 4. -/
theorem claim_C5_append_padding_witness :
    0 < 4
    ∧ (GpuLayout.align_to (GpuBytes.mk [9, 9, 9] 4) 4).bytes
        = [9, 9, 9] ++ List.replicate ((3 + 4 - 1) / 4 * 4 - 3) 0 :=
  ⟨by decide, (claim_C5_append_padding (GpuBytes.mk [9, 9, 9] 4) 4 (by decide)).1⟩

/-- Claim C4: finalization pads the buffer to the accumulator's own
current alignment and returns the bytes, so the returned length is a
multiple of the final alignment; re-applying the finalization padding to
an already aligned buffer appends nothing, and finalizing twice yields
the same byte sequence. -/
theorem claim_C4_finalize (buf : GpuBytes) (h : 0 < buf.alignment) :
    buf.as_slice = (GpuLayout.align_to buf buf.alignment).bytes
    ∧ buf.as_slice.length % buf.alignment = 0
    ∧ (buf.bytes.length % buf.alignment = 0 → GpuLayout.align buf = buf)
    ∧ GpuLayout.align (GpuLayout.align buf) = GpuLayout.align buf
    ∧ (GpuLayout.align buf).as_slice = buf.as_slice := by
  have halign : GpuLayout.align (GpuLayout.align buf) = GpuLayout.align buf := by
    unfold GpuLayout.align
    rw [align_to_alignment]
    exact align_to_eq_self (by rw [align_to_length]; exact nextMultipleOf_mod _ h)
  refine ⟨rfl, ?_, ?_, halign, ?_⟩
  · unfold GpuBytes.as_slice GpuLayout.align
    rw [align_to_length]
    exact nextMultipleOf_mod _ h
  · intro hlen
    unfold GpuLayout.align
    exact align_to_eq_self hlen
  · unfold GpuBytes.as_slice
    rw [halign]

/-- Witness for claim C4 at a three-byte buffer with alignment 4. -/
theorem claim_C4_finalize_witness :
    0 < (GpuBytes.mk [1, 2, 3] 4).alignment
    ∧ (GpuBytes.mk [1, 2, 3] 4).as_slice.length % (GpuBytes.mk [1, 2, 3] 4).alignment = 0 :=
  ⟨by decide, (claim_C4_finalize (GpuBytes.mk [1, 2, 3] 4) (by decide)).2.1⟩

/-- Claim C2, amended: for every sequence of writes into an accumulator
created by empty, the alignment after each write is non-decreasing, is
always at least 4, and equals the maximum of 4 and the alignments of the
values with a non-empty byte view written since creation; a value with
an empty byte view leaves the alignment unchanged. -/
theorem claim_C2_alignment_invariant (ds : List GpuBytes) :
    4 ≤ (writeList GpuBytes.empty ds).alignment
    ∧ (∀ d, (writeList GpuBytes.empty ds).alignment
        ≤ (writeList GpuBytes.empty (ds ++ [d])).alignment)
    ∧ (writeList GpuBytes.empty ds).alignment
        = ds.foldl (fun a d => if d.bytes.isEmpty then a else a.max d.alignment) 4 := by
  refine ⟨?_, ?_, ?_⟩
  · exact writeList_alignment_ge GpuBytes.empty ds
  · intro d
    rw [writeList_append]
    exact write_alignment_ge _ d
  · exact writeList_alignment GpuBytes.empty ds

/-- Counterexample to claim C2 as stated: writing a value with an empty
byte view and reported alignment 32 into a fresh session leaves the
alignment at 4; it does not become the maximum of 4 and 32. -/
theorem claim_C2_counterexample :
    (writeList GpuBytes.empty [GpuBytes.mk [] 32]).alignment = 4
    ∧ (writeList GpuBytes.empty [GpuBytes.mk [] 32]).alignment ≠ Nat.max 4 32 := by
  decide

/-- Claim C7: selecting Std140 versus Std430 changes only the
array-element alignment rule: every sequence of single-value writes of
non-array values (scalars, vectors, matrices) followed by finalization
produces identical accumulators and identical byte sequences under both
policies. -/
theorem claim_C7_policy_identity (vs : List Value)
    (h : ∀ v ∈ vs, Value.isArr v = false) :
    writeValues Policy.std140 vs = writeValues Policy.std430 vs
    ∧ (writeValues Policy.std140 vs).as_slice
        = (writeValues Policy.std430 vs).as_slice := by
  have H : ∀ (ws : List Value), (∀ v ∈ ws, Value.isArr v = false) → ∀ (b : GpuBytes),
      ws.foldl (fun b2 v => GpuLayout.write b2 (Value.as_gpu_bytes Policy.std140 v)) b
        = ws.foldl (fun b2 v => GpuLayout.write b2 (Value.as_gpu_bytes Policy.std430 v)) b := by
    intro ws
    induction ws with
    | nil => intro _ b; simp only [List.foldl_nil]
    | cons w rest ih =>
      intro hws b
      simp only [List.foldl_cons]
      rw [as_gpu_bytes_policy_free (hws w (List.mem_cons_self w rest))]
      exact ih (fun v hv => hws v (List.mem_cons_of_mem w hv)) _
  have key : writeValues Policy.std140 vs = writeValues Policy.std430 vs := by
    unfold writeValues
    exact H vs h GpuBytes.empty
  exact ⟨key, by rw [key]⟩

/-- Witness for claim C7 on a scalar followed by a 3-component vector. -/
theorem claim_C7_policy_identity_witness :
    (∀ v ∈ [Value.scalar 1, Value.vec3 1 2 3], Value.isArr v = false)
    ∧ writeValues Policy.std140 [Value.scalar 1, Value.vec3 1 2 3]
        = writeValues Policy.std430 [Value.scalar 1, Value.vec3 1 2 3] := by
  have hp : ∀ v ∈ [Value.scalar 1, Value.vec3 1 2 3], Value.isArr v = false := by
    intro v hv
    simp only [List.mem_cons, List.not_mem_nil, or_false] at hv
    rcases hv with rfl | rfl
    · rfl
    · rfl
  exact ⟨hp, (claim_C7_policy_identity [Value.scalar 1, Value.vec3 1 2 3] hp).1⟩

/-- Claim C8: a square matrix serializes as N sequential column-vector
writes through the shared single-value write rule into a fresh empty
accumulator, columns receive no 16-byte array rounding under either
policy (a 2x2 matrix occupies 16 bytes with its second column at offset
8, a 3x3 matrix 44 bytes, a 4x4 matrix 64 bytes), and the matrix's
reported alignment equals the alignment of one of its column vectors. -/
theorem claim_C8_matrix_columns (p : Policy) (a1 a2 b1 b2 : Nat)
    (u1 u2 u3 v1 v2 v3 w1 w2 w3 : Nat)
    (m1 m2 m3 m4 n1 n2 n3 n4 o1 o2 o3 o4 q1 q2 q3 q4 : Nat) :
    Value.as_gpu_bytes p (Value.mat2 a1 a2 b1 b2)
      = GpuLayout.write (GpuLayout.write GpuBytes.empty (vec2Gb a1 a2)) (vec2Gb b1 b2)
    ∧ (Value.as_gpu_bytes p (Value.mat2 a1 a2 b1 b2)).alignment
        = (Value.as_gpu_bytes p (Value.vec2 a1 a2)).alignment
    ∧ (Value.as_gpu_bytes p (Value.mat2 a1 a2 b1 b2)).bytes
        = le4 a1 ++ le4 a2 ++ le4 b1 ++ le4 b2
    ∧ (Value.as_gpu_bytes p (Value.mat2 a1 a2 b1 b2)).bytes.length = 16
    ∧ Value.as_gpu_bytes p (Value.mat3 u1 u2 u3 v1 v2 v3 w1 w2 w3)
      = GpuLayout.write
          (GpuLayout.write (GpuLayout.write GpuBytes.empty (vec3Gb u1 u2 u3))
            (vec3Gb v1 v2 v3))
          (vec3Gb w1 w2 w3)
    ∧ (Value.as_gpu_bytes p (Value.mat3 u1 u2 u3 v1 v2 v3 w1 w2 w3)).alignment
        = (Value.as_gpu_bytes p (Value.vec3 u1 u2 u3)).alignment
    ∧ (Value.as_gpu_bytes p (Value.mat3 u1 u2 u3 v1 v2 v3 w1 w2 w3)).bytes
        = le4 u1 ++ le4 u2 ++ le4 u3 ++ List.replicate 4 0
          ++ le4 v1 ++ le4 v2 ++ le4 v3 ++ List.replicate 4 0
          ++ le4 w1 ++ le4 w2 ++ le4 w3
    ∧ (Value.as_gpu_bytes p (Value.mat3 u1 u2 u3 v1 v2 v3 w1 w2 w3)).bytes.length = 44
    ∧ Value.as_gpu_bytes p
        (Value.mat4 m1 m2 m3 m4 n1 n2 n3 n4 o1 o2 o3 o4 q1 q2 q3 q4)
      = GpuLayout.write
          (GpuLayout.write
            (GpuLayout.write (GpuLayout.write GpuBytes.empty (vec4Gb m1 m2 m3 m4))
              (vec4Gb n1 n2 n3 n4))
            (vec4Gb o1 o2 o3 o4))
          (vec4Gb q1 q2 q3 q4)
    ∧ (Value.as_gpu_bytes p
        (Value.mat4 m1 m2 m3 m4 n1 n2 n3 n4 o1 o2 o3 o4 q1 q2 q3 q4)).alignment
        = (Value.as_gpu_bytes p (Value.vec4 m1 m2 m3 m4)).alignment
    ∧ (Value.as_gpu_bytes p
        (Value.mat4 m1 m2 m3 m4 n1 n2 n3 n4 o1 o2 o3 o4 q1 q2 q3 q4)).bytes
        = le4 m1 ++ le4 m2 ++ le4 m3 ++ le4 m4
          ++ le4 n1 ++ le4 n2 ++ le4 n3 ++ le4 n4
          ++ le4 o1 ++ le4 o2 ++ le4 o3 ++ le4 o4
          ++ le4 q1 ++ le4 q2 ++ le4 q3 ++ le4 q4
    ∧ (Value.as_gpu_bytes p
        (Value.mat4 m1 m2 m3 m4 n1 n2 n3 n4 o1 o2 o3 o4 q1 q2 q3 q4)).bytes.length = 64 := by
  rw [as_gpu_bytes_mat2, as_gpu_bytes_mat3, as_gpu_bytes_mat4, as_gpu_bytes_vec2,
    as_gpu_bytes_vec3, as_gpu_bytes_vec4]
  refine ⟨rfl, ?_, ?_, ?_, rfl, ?_, ?_, ?_, rfl, ?_, ?_, ?_⟩ <;>
    simp [mat2Gb, mat3Gb, mat4Gb, vec2Gb, vec3Gb, vec4Gb, GpuLayout.write,
      GpuLayout.align_to, GpuBytes.empty, GpuBytes.from_slice, nextMultipleOf, le4]

/-- The Std140 array rule raises the accumulator alignment only to each
non-empty element's natural alignment, never to the 16-rounded one. -/
theorem std140_write_array_alignment (buf : GpuBytes) (data : List GpuBytes) :
    (Std140Layout.write_array buf data).alignment
      = data.foldl (fun a e => if e.bytes.isEmpty then a else a.max e.alignment)
          buf.alignment := by
  induction data generalizing buf with
  | nil => rfl
  | cons e rest ih =>
    rw [std140_write_array_cons, ih, List.foldl_cons]
    congr 1
    by_cases h : e.bytes = []
    · have hp : (GpuLayout.align_to e (nextMultipleOf e.alignment 16)).bytes = [] :=
        (align_to_bytes_eq_nil_iff e _).mpr h
      simp only [std140Step]
      rw [write_empty_data _ hp, h]
      rfl
    · have hp : (GpuLayout.align_to e (nextMultipleOf e.alignment 16)).bytes ≠ [] :=
        fun hc => h ((align_to_bytes_eq_nil_iff e _).mp hc)
      simp only [std140Step]
      rw [write_alignment_of_ne _ hp, align_to_alignment]
      simp [isEmpty_eq_false h]

/-- Claim C10: under Std140 the 16-rounded alignment is used only for
the element's internal padding; the accumulator's recorded alignment is
raised only to each non-empty element's natural alignment.  After
writing a 32-bit scalar array under Std140 the session alignment is 4,
not 16, finalizing the two-scalar-array session yields 32 bytes, and a
session holding that array plus one more scalar finalizes at 36 bytes, a
multiple of 4 but not of 16. -/
theorem claim_C10_std140_natural_alignment (buf : GpuBytes) (data : List GpuBytes)
    (x y z : Nat) :
    ((Std140Layout.write_array buf data).alignment
      = data.foldl (fun a e => if e.bytes.isEmpty then a else a.max e.alignment)
          buf.alignment)
    ∧ (Value.as_gpu_bytes Policy.std140
        (Value.arr [Value.scalar x, Value.scalar y])).alignment = 4
    ∧ (GpuLayout.write GpuBytes.empty
        (Value.as_gpu_bytes Policy.std140
          (Value.arr [Value.scalar x, Value.scalar y]))).alignment = 4
    ∧ (GpuLayout.write GpuBytes.empty
        (Value.as_gpu_bytes Policy.std140
          (Value.arr [Value.scalar x, Value.scalar y]))).as_slice.length = 32
    ∧ (GpuLayout.write
        (GpuLayout.write GpuBytes.empty
          (Value.as_gpu_bytes Policy.std140 (Value.arr [Value.scalar x, Value.scalar y])))
        (scalarGb z)).as_slice.length = 36
    ∧ 36 % 4 = 0
    ∧ 36 % 16 ≠ 0 := by
  refine ⟨std140_write_array_alignment buf data, ?_, ?_, ?_, ?_, by decide, by decide⟩
  all_goals
    rw [as_gpu_bytes_arr, listAsGpuBytes_cons, listAsGpuBytes_cons, listAsGpuBytes_nil,
      as_gpu_bytes_scalar, as_gpu_bytes_scalar]
  all_goals
    simp [writeArrayP, Std140Layout.write_array, GpuLayout.write, GpuLayout.align_to,
      GpuLayout.align, GpuBytes.as_slice, scalarGb, GpuBytes.from_slice, GpuBytes.empty,
      nextMultipleOf, le4]

/-- Claim C6: under Std430, write_array packs elements back-to-back with
only the padding demanded by each element's natural alignment: the bytes
of the i-th non-empty element are appended after exactly the padding
that reaches the least multiple of its natural alignment, followed by
its internal natural-alignment padding; a 2-element 32-bit scalar array
written into an empty session and finalized yields exactly 8 bytes with
no padding. -/
theorem claim_C6_std430_density (buf : GpuBytes) (data : List GpuBytes) (i : Nat)
    (hi : i < data.length)
    (he : (data.get ⟨i, hi⟩).bytes ≠ [])
    (ha : 0 < (data.get ⟨i, hi⟩).alignment) :
    ((std430Prefix buf data (i + 1)).bytes
      = (std430Prefix buf data i).bytes
        ++ List.replicate
            (nextMultipleOf (std430Prefix buf data i).bytes.length
                (data.get ⟨i, hi⟩).alignment
              - (std430Prefix buf data i).bytes.length) 0
        ++ ((data.get ⟨i, hi⟩).bytes
            ++ List.replicate
                (nextMultipleOf (data.get ⟨i, hi⟩).bytes.length
                    (data.get ⟨i, hi⟩).alignment
                  - (data.get ⟨i, hi⟩).bytes.length) 0))
    ∧ (data.get ⟨i, hi⟩).alignment
        ∣ nextMultipleOf (std430Prefix buf data i).bytes.length
            (data.get ⟨i, hi⟩).alignment
    ∧ (std430Prefix buf data i).bytes.length
        ≤ nextMultipleOf (std430Prefix buf data i).bytes.length
            (data.get ⟨i, hi⟩).alignment
    ∧ (∀ m, (data.get ⟨i, hi⟩).alignment ∣ m
        → (std430Prefix buf data i).bytes.length ≤ m
        → nextMultipleOf (std430Prefix buf data i).bytes.length
            (data.get ⟨i, hi⟩).alignment ≤ m)
    ∧ (∀ x y : Nat,
        (GpuLayout.write GpuBytes.empty
          (Value.as_gpu_bytes Policy.std430
            (Value.arr [Value.scalar x, Value.scalar y]))).as_slice
          = le4 x ++ le4 y
        ∧ (GpuLayout.write GpuBytes.empty
            (Value.as_gpu_bytes Policy.std430
              (Value.arr [Value.scalar x, Value.scalar y]))).as_slice.length = 8) := by
  have hp : (GpuLayout.align_to (data.get ⟨i, hi⟩) (data.get ⟨i, hi⟩).alignment).bytes
      ≠ [] := fun hc => he ((align_to_bytes_eq_nil_iff _ _).mp hc)
  refine ⟨?_, nextMultipleOf_dvd _ ha, nextMultipleOf_le _ _, ?_, ?_⟩
  · rw [std430Prefix_succ buf data i hi]
    simp only [std430Step]
    rw [write_bytes_of_ne _ hp, align_to_alignment, align_to_bytes]
  · intro m hm hle
    exact nextMultipleOf_le_of_dvd _ ha hm hle
  · intro x y
    constructor
    all_goals
      rw [as_gpu_bytes_arr, listAsGpuBytes_cons, listAsGpuBytes_cons, listAsGpuBytes_nil,
        as_gpu_bytes_scalar, as_gpu_bytes_scalar]
    all_goals
      simp [writeArrayP, Std430Layout.write_array, GpuLayout.write, GpuLayout.align_to,
        GpuLayout.align, GpuBytes.as_slice, scalarGb, GpuBytes.from_slice, GpuBytes.empty,
        nextMultipleOf, le4]

/-- Witness for claim C6 on a two-element list with a one-byte second
element of alignment 2. -/
theorem claim_C6_std430_density_witness :
    ((([GpuBytes.mk [1, 2, 3] 4, GpuBytes.mk [5] 2] : List GpuBytes).get
        ⟨1, by decide⟩).bytes ≠ [])
    ∧ (0 < (([GpuBytes.mk [1, 2, 3] 4, GpuBytes.mk [5] 2] : List GpuBytes).get
        ⟨1, by decide⟩).alignment)
    ∧ ((std430Prefix (GpuBytes.mk [] 4)
          [GpuBytes.mk [1, 2, 3] 4, GpuBytes.mk [5] 2] 1).bytes.length
        ≤ nextMultipleOf
            (std430Prefix (GpuBytes.mk [] 4)
              [GpuBytes.mk [1, 2, 3] 4, GpuBytes.mk [5] 2] 1).bytes.length
            (([GpuBytes.mk [1, 2, 3] 4, GpuBytes.mk [5] 2] : List GpuBytes).get
              ⟨1, by decide⟩).alignment) := by
  refine ⟨by decide, by decide, ?_⟩
  exact (claim_C6_std430_density (GpuBytes.mk [] 4)
    [GpuBytes.mk [1, 2, 3] 4, GpuBytes.mk [5] 2] 1 (by decide) (by decide) (by decide)).2.2.1

/-- One Std140 step of a non-empty element keeps the byte length on a
multiple of 16 when the element alignments are powers of two. -/
theorem std140Step_dvd16 {e : GpuBytes} (he : ∃ k, e.alignment = 2 ^ k) {b : GpuBytes}
    (hb : 16 ∣ b.bytes.length) : 16 ∣ (std140Step b e).bytes.length := by
  by_cases hemp : e.bytes = []
  · have hp : (GpuLayout.align_to e (nextMultipleOf e.alignment 16)).bytes = [] :=
      (align_to_bytes_eq_nil_iff e _).mpr hemp
    simp only [std140Step]
    rw [write_empty_data _ hp]
    exact hb
  · have hp : (GpuLayout.align_to e (nextMultipleOf e.alignment 16)).bytes ≠ [] :=
      fun hc => hemp ((align_to_bytes_eq_nil_iff e _).mp hc)
    simp only [std140Step]
    rw [write_length_of_ne _ hp, align_to_alignment, align_to_length]
    refine Nat.dvd_add (dvd16_nextMultipleOf he hb) ?_
    have h16 : (16 : Nat) ∣ nextMultipleOf e.alignment 16 :=
      nextMultipleOf_dvd _ (by norm_num)
    have hea : 0 < nextMultipleOf e.alignment 16 :=
      Nat.lt_of_lt_of_le (pow2_pos he) (nextMultipleOf_le _ _)
    exact h16.trans (nextMultipleOf_dvd _ hea)

/-- The byte length of a Std140 array stays a multiple of 16 from a
16-aligned start, for power-of-two element alignments. -/
theorem std140_write_array_length_dvd16 {data : List GpuBytes}
    (h : ∀ d ∈ data, ∃ k, d.alignment = 2 ^ k) {buf : GpuBytes}
    (hbuf : 16 ∣ buf.bytes.length) :
    16 ∣ (Std140Layout.write_array buf data).bytes.length := by
  induction data generalizing buf with
  | nil => simpa [std140_write_array_nil] using hbuf
  | cons e rest ih =>
    rw [std140_write_array_cons]
    exact ih (fun d hd => h d (List.mem_cons_of_mem e hd))
      (std140Step_dvd16 (h e (List.mem_cons_self e rest)) hbuf)

/-- The byte length of one non-empty Std140 array step: the element's
start offset plus its 16-rounded slot size. -/
theorem std140Step_length_of_ne {e : GpuBytes} (hemp : e.bytes ≠ []) (b : GpuBytes) :
    (std140Step b e).bytes.length
      = nextMultipleOf b.bytes.length e.alignment
        + nextMultipleOf e.bytes.length (nextMultipleOf e.alignment 16) := by
  have hp : (GpuLayout.align_to e (nextMultipleOf e.alignment 16)).bytes ≠ [] :=
    fun hc => hemp ((align_to_bytes_eq_nil_iff e _).mp hc)
  simp only [std140Step]
  rw [write_length_of_ne _ hp, align_to_alignment, align_to_length]

/-- Claim C1: under Std140, for arrays written by write_array into a
fresh accumulator with power-of-two element alignments, every element
occupies a slot whose starting offset and size are multiples of 16; in
particular a 2-element 32-bit scalar array written into an empty session
and finalized yields 32 bytes, each scalar followed by 12 zero bytes. -/
theorem claim_C1_std140_array_slots (data : List GpuBytes)
    (hpow : ∀ d ∈ data, ∃ k, d.alignment = 2 ^ k) (i : Nat) (hi : i < data.length) :
    16 ∣ (std140Prefix GpuBytes.empty data i).bytes.length
    ∧ 16 ∣ nextMultipleOf (std140Prefix GpuBytes.empty data i).bytes.length
          (data.get ⟨i, hi⟩).alignment
    ∧ 16 ∣ ((std140Prefix GpuBytes.empty data (i + 1)).bytes.length
          - nextMultipleOf (std140Prefix GpuBytes.empty data i).bytes.length
              (data.get ⟨i, hi⟩).alignment)
    ∧ (∀ x y : Nat,
        (GpuLayout.write GpuBytes.empty
          (Value.as_gpu_bytes Policy.std140
            (Value.arr [Value.scalar x, Value.scalar y]))).as_slice
          = le4 x ++ List.replicate 12 0 ++ le4 y ++ List.replicate 12 0
        ∧ (GpuLayout.write GpuBytes.empty
            (Value.as_gpu_bytes Policy.std140
              (Value.arr [Value.scalar x, Value.scalar y]))).as_slice.length = 32) := by
  have hpow_take : ∀ d ∈ data.take i, ∃ k, d.alignment = 2 ^ k :=
    fun d hd => hpow d (List.take_subset i data hd)
  have hget := hpow (data.get ⟨i, hi⟩) (List.get_mem data i hi)
  have h1 : 16 ∣ (std140Prefix GpuBytes.empty data i).bytes.length := by
    unfold std140Prefix
    exact std140_write_array_length_dvd16 hpow_take (by simp [GpuBytes.empty])
  refine ⟨h1, dvd16_nextMultipleOf hget h1, ?_, ?_⟩
  · rw [std140Prefix_succ GpuBytes.empty data i hi]
    by_cases hemp : (data.get ⟨i, hi⟩).bytes = []
    · have hp : (GpuLayout.align_to (data.get ⟨i, hi⟩)
          (nextMultipleOf (data.get ⟨i, hi⟩).alignment 16)).bytes = [] :=
        (align_to_bytes_eq_nil_iff _ _).mpr hemp
      simp only [std140Step]
      rw [write_empty_data _ hp, Nat.sub_eq_zero_of_le (nextMultipleOf_le _ _)]
      exact dvd_zero 16
    · rw [std140Step_length_of_ne hemp, Nat.add_sub_cancel_left]
      have h16 : (16 : Nat) ∣ nextMultipleOf (data.get ⟨i, hi⟩).alignment 16 :=
        nextMultipleOf_dvd _ (by norm_num)
      have hea : 0 < nextMultipleOf (data.get ⟨i, hi⟩).alignment 16 :=
        Nat.lt_of_lt_of_le (pow2_pos hget) (nextMultipleOf_le _ _)
      exact h16.trans (nextMultipleOf_dvd _ hea)
  · intro x y
    constructor
    all_goals
      rw [as_gpu_bytes_arr, listAsGpuBytes_cons, listAsGpuBytes_cons, listAsGpuBytes_nil,
        as_gpu_bytes_scalar, as_gpu_bytes_scalar]
    all_goals
      simp [writeArrayP, Std140Layout.write_array, GpuLayout.write, GpuLayout.align_to,
        GpuLayout.align, GpuBytes.as_slice, scalarGb, GpuBytes.from_slice, GpuBytes.empty,
        nextMultipleOf, le4]

/-- Witness for claim C1 on a two-element list of alignments 4 and 8. -/
theorem claim_C1_std140_array_slots_witness :
    (∀ d ∈ [GpuBytes.mk [1] 4, GpuBytes.mk [2, 2] 8], ∃ k, GpuBytes.alignment d = 2 ^ k)
    ∧ 1 < ([GpuBytes.mk [1] 4, GpuBytes.mk [2, 2] 8] : List GpuBytes).length
    ∧ 16 ∣ (std140Prefix GpuBytes.empty
        [GpuBytes.mk [1] 4, GpuBytes.mk [2, 2] 8] 1).bytes.length := by
  have hpow : ∀ d ∈ [GpuBytes.mk [1] 4, GpuBytes.mk [2, 2] 8],
      ∃ k, GpuBytes.alignment d = 2 ^ k := by
    intro d hd
    simp only [List.mem_cons, List.not_mem_nil, or_false] at hd
    rcases hd with rfl | rfl
    · exact ⟨2, rfl⟩
    · exact ⟨3, rfl⟩
  exact ⟨hpow, by decide, (claim_C1_std140_array_slots _ hpow 1 (by decide)).1⟩

/-- The checked single-value write never fails when the data alignment
is positive (or the data is empty). -/
theorem writeChecked_eq {d : GpuBytes} (hd : 0 < d.alignment) (buf : GpuBytes) :
    writeChecked buf d = some (GpuLayout.write buf d) := by
  by_cases h : d.bytes = []
  · rw [write_empty_data buf h]
    simp [writeChecked, h]
  · simp [writeChecked, isEmpty_eq_false h, align_toChecked, Nat.pos_iff_ne_zero.mp hd,
      GpuLayout.write]

/-- The checked array rule never fails for power-of-two element
alignments, and computes the unchecked result. -/
theorem write_arrayChecked_eq (p : Policy) {data : List GpuBytes}
    (h : ∀ e ∈ data, ∃ k, e.alignment = 2 ^ k) (buf : GpuBytes) :
    write_arrayChecked p buf data = some (writeArrayP p buf data) := by
  induction data generalizing buf with
  | nil => cases p <;> rfl
  | cons e rest ih =>
    have he := h e (List.mem_cons_self e rest)
    have hrest := fun d hd => h d (List.mem_cons_of_mem e hd)
    have hal : 0 < e.alignment := pow2_pos he
    have hpad : ∀ a : Nat, (GpuLayout.align_to e a).alignment = e.alignment :=
      fun a => align_to_alignment e a
    cases p with
    | std140 =>
      have hea : nextMultipleOf e.alignment 16 ≠ 0 :=
        Nat.pos_iff_ne_zero.mp (Nat.lt_of_lt_of_le hal (nextMultipleOf_le _ _))
      have hw : writeChecked buf (GpuLayout.align_to e (nextMultipleOf e.alignment 16))
          = some (GpuLayout.write buf (GpuLayout.align_to e (nextMultipleOf e.alignment 16))) :=
        writeChecked_eq (by rw [hpad]; exact hal) buf
      simp only [write_arrayChecked, List.foldlM_cons] at ih ⊢
      have hstep : (align_toChecked e (nextMultipleOf e.alignment 16)).bind
          (fun ep => writeChecked buf ep)
          = some (GpuLayout.write buf
              (GpuLayout.align_to e (nextMultipleOf e.alignment 16))) := by
        simp [align_toChecked, hea, hw]
      rw [show writeArrayP Policy.std140 buf (e :: rest)
            = writeArrayP Policy.std140 (std140Step buf e) rest from rfl, hstep]
      exact ih hrest _
    | std430 =>
      have hea : e.alignment ≠ 0 := Nat.pos_iff_ne_zero.mp hal
      have hw : writeChecked buf (GpuLayout.align_to e e.alignment)
          = some (GpuLayout.write buf (GpuLayout.align_to e e.alignment)) :=
        writeChecked_eq (by rw [hpad]; exact hal) buf
      simp only [write_arrayChecked, List.foldlM_cons] at ih ⊢
      have hstep : (align_toChecked e e.alignment).bind (fun ep => writeChecked buf ep)
          = some (GpuLayout.write buf (GpuLayout.align_to e e.alignment)) := by
        simp [align_toChecked, hea, hw]
      rw [show writeArrayP Policy.std430 buf (e :: rest)
            = writeArrayP Policy.std430 (std430Step buf e) rest from rfl, hstep]
      exact ih hrest _

/-- Checked finalization never fails when the accumulator alignment is
positive. -/
theorem finalizeChecked_eq {buf : GpuBytes} (h : 0 < buf.alignment) :
    finalizeChecked buf = some buf.as_slice := by
  simp [finalizeChecked, align_toChecked, Nat.pos_iff_ne_zero.mp h, GpuBytes.as_slice,
    GpuLayout.align]

/-- Claim C9: with every supplied alignment a power of two (hence at
least 1), none of the operations can fail: the division-by-zero branch
of the padding computation is unreachable for write, both policies'
write_array, append_padding, and finalization of any session built from
such writes. -/
theorem claim_C9_totality (buf d : GpuBytes) (es ds : List GpuBytes)
    (hd : ∃ k, d.alignment = 2 ^ k)
    (hes : ∀ e ∈ es, ∃ k, e.alignment = 2 ^ k)
    (hds : ∀ e ∈ ds, ∃ k, e.alignment = 2 ^ k) :
    align_toChecked buf d.alignment = some (GpuLayout.align_to buf d.alignment)
    ∧ writeChecked buf d = some (GpuLayout.write buf d)
    ∧ write_arrayChecked Policy.std140 buf es = some (Std140Layout.write_array buf es)
    ∧ write_arrayChecked Policy.std430 buf es = some (Std430Layout.write_array buf es)
    ∧ finalizeChecked (writeList GpuBytes.empty ds)
        = some ((writeList GpuBytes.empty ds).as_slice) := by
  have hdpos := pow2_pos hd
  refine ⟨?_, writeChecked_eq hdpos buf, ?_, ?_, ?_⟩
  · simp [align_toChecked, Nat.pos_iff_ne_zero.mp hdpos]
  · exact write_arrayChecked_eq Policy.std140 hes buf
  · exact write_arrayChecked_eq Policy.std430 hes buf
  · exact finalizeChecked_eq (pow2_pos (writeList_alignment_pow2 ⟨2, rfl⟩ hds))

/-- Witness for claim C9 at concrete buffers and lists. -/
theorem claim_C9_totality_witness :
    (∃ k, (GpuBytes.mk [2, 2] 8).alignment = 2 ^ k)
    ∧ (∀ e ∈ [GpuBytes.mk [3] 4], ∃ k, GpuBytes.alignment e = 2 ^ k)
    ∧ writeChecked (GpuBytes.mk [1] 4) (GpuBytes.mk [2, 2] 8)
        = some (GpuLayout.write (GpuBytes.mk [1] 4) (GpuBytes.mk [2, 2] 8)) := by
  have hd : ∃ k, (GpuBytes.mk [2, 2] 8).alignment = 2 ^ k := ⟨3, rfl⟩
  have hes : ∀ e ∈ [GpuBytes.mk [3] 4], ∃ k, GpuBytes.alignment e = 2 ^ k := by
    intro e hee
    simp only [List.mem_cons, List.not_mem_nil, or_false] at hee
    subst hee
    exact ⟨2, rfl⟩
  exact ⟨hd, hes, (claim_C9_totality (GpuBytes.mk [1] 4) (GpuBytes.mk [2, 2] 8)
    [GpuBytes.mk [3] 4] [GpuBytes.mk [3] 4] hd hes hes).2.1⟩

end GpuLayoutVerif
